import Mathlib

set_option maxHeartbeats 1000000

/-!
Verification of the core of `ASCIISwapToolv2.py` (clone-one-latest-shot
utility).  The Python source is shallowly embedded: pure string helpers are
translated to Lean functions on `List Char` / `String`, and the stateful
orchestrator `CloneOneLatestGUI.clone_latest` becomes a pure function whose
filesystem and GUI collaborators (`os.path.isdir`, `os.path.normpath`,
`os.walk`, `os.makedirs`, `os.path.isfile`, `open`, `messagebox.askyesno`)
are explicit parameters.

Modelling notes:
  - Python `str.replace(old, new)` is a global, non-overlapping,
    left-to-right literal replacement; `pyReplace` implements exactly that
    (including Python's special treatment of an empty pattern).
  - The regexes in the source are specialised literal scanners:
    `ep_\d+` / `sq_\d+` / `sh_\d+` via `ftScan` (leftmost match, maximal
    digit run), `_v(\d+)\.ma$` via `extract_version_number` (the digit run
    must immediately precede `.ma` at the end of the string, case-insensitive
    on the letters), and `^(.*)_v\d+$` via `strip_version_suffix` (greedy
    `.*`, so the last `_v<digits>` suffix is stripped).  `\d` is modelled as
    an ASCII digit and `$` as end-of-string (filenames produced by `os.walk`
    never end in a newline).
  - `re.match(r".*_v\d+\.ma$", fn)` succeeds exactly when
    `re.search(r"_v(\d+)\.ma$", fn)` does, so `find_all_ma_files` filters
    with the same recogniser that `extract_version_number` uses.
  - `os.walk` is modelled by its flattened result: a list of
    (directory path, filename) pairs in traversal order.
  - Paths are POSIX-style: `os.path.basename` / `os.path.join` /
    `os.path.splitext` are translated from `posixpath`.
-/

namespace ASCIISwapTool

/-- Whitespace characters removed by Python `str.strip()` (ASCII range). -/
def isPySpace (c : Char) : Bool :=
  c = ' ' || c = '\t' || c = '\n' || c = '\r' || c = '\x0b' || c = '\x0c'

/-- Python `str.strip()`: drop whitespace from both ends. -/
def pyStrip (s : String) : String :=
  ⟨((s.data.dropWhile isPySpace).reverse.dropWhile isPySpace).reverse⟩

/-- Boolean "is a prefix of" test on character lists. -/
def isPre : List Char → List Char → Bool
  | [], _ => true
  | _ :: _, [] => false
  | a :: as, b :: bs => a = b && isPre as bs

/-- The scanning pass of Python `str.replace` for a non-empty pattern:
at each position, if the pattern starts here, emit the replacement and skip
past the pattern, otherwise keep the character and move one position right.
The recursion is driven by a fuel argument so that the function reduces by
kernel computation; every step consumes at least one character, so a fuel of
the string length (as `replaceFrom` passes) is never exhausted. -/
def replaceGo (pat rep : List Char) : Nat → List Char → List Char
  | _, [] => []
  | 0, rest => rest
  | fuel + 1, c :: rest =>
    if pat ≠ [] ∧ isPre pat (c :: rest) = true then
      rep ++ replaceGo pat rep fuel ((c :: rest).drop pat.length)
    else
      c :: replaceGo pat rep fuel rest

/-- The scanning pass of Python `str.replace`, at its natural recursion. -/
def replaceFrom (pat rep s : List Char) : List Char :=
  replaceGo pat rep s.length s

/-- Python `s.replace(pat, rep)` on character lists.  An empty pattern
inserts the replacement at every position (before, between and after all
characters), as CPython does. -/
def pyReplace (s pat rep : List Char) : List Char :=
  if pat = [] then rep ++ s.foldr (fun c acc => c :: (rep ++ acc)) []
  else replaceFrom pat rep s

/-- Python `s.replace(pat, rep)` on `String`. -/
def strReplace (s pat rep : String) : String :=
  ⟨pyReplace s.data pat.data rep.data⟩

/-- Boolean substring test (Python `pat in s`). -/
def containsSub (pat : List Char) : List Char → Bool
  | [] => pat.isEmpty
  | c :: rest => isPre pat (c :: rest) || containsSub pat rest

/-- Substring test on `String`. -/
def containsSubS (pat s : String) : Bool :=
  containsSub pat.data s.data

/-- Python `s.split(pat)` for a non-empty separator: leftmost,
non-overlapping decomposition into the pieces between pattern occurrences.
Fuel-driven like `replaceGo`, with the same never-exhausted fuel. -/
def splitGo (pat : List Char) : Nat → List Char → List (List Char)
  | _, [] => [[]]
  | 0, rest => [rest]
  | fuel + 1, c :: rest =>
    if pat ≠ [] ∧ isPre pat (c :: rest) = true then
      [] :: splitGo pat fuel ((c :: rest).drop pat.length)
    else
      match splitGo pat fuel rest with
      | [] => [[c]]
      | p :: ps => (c :: p) :: ps

/-- Python `s.split(pat)` for a non-empty separator, at its natural
recursion. -/
def pySplit (pat s : List Char) : List (List Char) :=
  splitGo pat s.length s

/-- Join a list of pieces with a separator (Python `sep.join(pieces)`). -/
def joinWith (sep : List Char) : List (List Char) → List Char
  | [] => []
  | [p] => p
  | p :: ps => p ++ sep ++ joinWith sep ps

/-- `path.replace("\\", "/")` on character lists. -/
def normSlash (l : List Char) : List Char :=
  pyReplace l ['\\'] ['/']

/-- `path.replace("\\", "/")` on `String`. -/
def normSlashS (s : String) : String :=
  ⟨normSlash s.data⟩

/-- Leftmost match of the regex `<pre>\d+` (a literal prefix followed by one
or more digits): scan left to right; at the first position where the literal
prefix occurs followed by at least one digit, return the prefix together
with the maximal digit run (greedy `\d+`). -/
def ftScan (pre : List Char) : List Char → Option (List Char)
  | [] => none
  | c :: rest =>
    if isPre pre (c :: rest) ∧ ((c :: rest).drop pre.length).takeWhile Char.isDigit ≠ [] then
      some (pre ++ ((c :: rest).drop pre.length).takeWhile Char.isDigit)
    else
      ftScan pre rest

/-- `find_token(pattern, path)` from the source, specialised to the three
patterns actually used (`ep_\d+`, `sq_\d+`, `sh_\d+`): the pattern is passed
as its literal prefix `pre` (`"ep_"`, `"sq_"`, `"sh_"`).  Backslashes are
normalised to forward slashes before the regex search, as in the source. -/
def find_token (pre path : String) : Option String :=
  (ftScan pre.data (normSlash path.data)).map (fun l => String.mk l)

/-- Value of a run of ASCII digit characters (Python `int(...)`). -/
def digitsVal (ds : List Char) : Nat :=
  ds.foldl (fun n c => 10 * n + (c.toNat - 48)) 0

/-- `extract_version_number(filename)`: `re.search(r"_v(\d+)\.ma$", fn,
re.IGNORECASE)` returns the integer of the digit group, or `None`.  The
string must end in `.ma` (case-insensitive) preceded by a non-empty digit
run preceded by `_v` (case-insensitive `v`); the matched digit run is the
maximal trailing one, since `_v` ends in a non-digit character. -/
def extract_version_number (fn : String) : Option Nat :=
  match fn.data.reverse with
  | a :: m :: d :: rest =>
    if (a = 'a' ∨ a = 'A') ∧ (m = 'm' ∨ m = 'M') ∧ d = '.' then
      let ds := rest.takeWhile Char.isDigit
      if ds = [] then none
      else
        match rest.drop ds.length with
        | v :: u :: _ => if (v = 'v' ∨ v = 'V') ∧ u = '_' then some (digitsVal ds.reverse) else none
        | _ => none
    else none
  | _ => none

/-- The filename filter of `find_all_ma_files`:
`re.compile(r".*_v\d+\.ma$", re.IGNORECASE).match(fn)` succeeds exactly when
`re.search(r"_v(\d+)\.ma$", fn, re.IGNORECASE)` does (the anchored `.*`
absorbs an arbitrary prefix), so the recogniser of
`extract_version_number` is reused. -/
def ma_version_match (fn : String) : Bool :=
  (extract_version_number fn).isSome

/-- `os.path.join(a, b)` from `posixpath` (two-argument form). -/
def pyJoin (a b : String) : String :=
  if b.data.head? = some '/' then b
  else if a.data = [] ∨ a.data.getLast? = some '/' then a ++ b
  else a ++ "/" ++ b

/-- `find_all_ma_files(root)`: walk the tree (here: the flattened `os.walk`
result) and collect `os.path.join(dirpath, fn)` for every filename matching
the versioned pattern, in traversal order. -/
def find_all_ma_files (walk : List (String × String)) : List String :=
  (walk.filter (fun df => ma_version_match df.2)).map (fun df => pyJoin df.1 df.2)

/-- `os.path.basename` (`posixpath`): everything after the last `/`. -/
def basenameL (l : List Char) : List Char :=
  (l.reverse.takeWhile (fun c => c ≠ '/')).reverse

/-- `os.path.basename` on `String`. -/
def os_basename (p : String) : String :=
  ⟨basenameL p.data⟩

/-- `os.path.splitext` restricted to a path component without `/`:
split at the last dot, unless every character before it is a dot
(leading dots of a basename never start an extension). -/
def splitExtBase (bn : List Char) : List Char × List Char :=
  let r := bn.reverse
  let e := r.takeWhile (fun c => c ≠ '.')
  if e.length = r.length then (bn, [])
  else
    let stemRev := r.drop (e.length + 1)
    if stemRev.all (fun c => c = '.') then (bn, [])
    else (stemRev.reverse, '.' :: e.reverse)

/-- `os.path.splitext(p)` (`posixpath`): the extension is taken inside the
basename of `p`; the directory part is left on the stem. -/
def os_splitext (p : String) : String × String :=
  let bn := basenameL p.data
  let dir := p.data.take (p.data.length - bn.length)
  let se := splitExtBase bn
  (⟨dir ++ se.1⟩, ⟨se.2⟩)

/-- `re.match(r"^(.*)_v\d+$", s, re.IGNORECASE)`: with the greedy `.*` the
match strips the last `_v<digits>` suffix; returns group 1 (everything
before that suffix), or `None` when the string does not end in
`_v<digits>`. -/
def strip_version_suffix (s : String) : Option String :=
  let r := s.data.reverse
  let ds := r.takeWhile Char.isDigit
  if ds = [] then none
  else
    match r.drop ds.length with
    | v :: u :: rest => if (v = 'v' ∨ v = 'V') ∧ u = '_' then some ⟨rest.reverse⟩ else none
    | _ => none

/-- Parsed version of a candidate path, as `select_highest_version` computes
it: `extract_version_number(os.path.basename(p))`. -/
def verOf (p : String) : Option Nat :=
  extract_version_number (os_basename p)

/-- The accumulator loop of `select_highest_version`: `best_path` starts as
`None` and `best_ver` as `-1`; an element replaces the best exactly when its
parsed version is strictly greater. -/
def sel_go : List String → Option String → Int → Option String
  | [], best, _ => best
  | p :: rest, best, best_ver =>
    match verOf p with
    | some ver => if (ver : Int) > best_ver then sel_go rest (some p) (ver : Int)
                  else sel_go rest best best_ver
    | none => sel_go rest best best_ver

/-- `select_highest_version(ma_paths)` from the source. -/
def select_highest_version (ma_paths : List String) : Option String :=
  sel_go ma_paths none (-1)

/-- The five in-place `content = content.replace(...)` statements of
`clone_latest`, in source order: episode token, sequence token, shot token,
full filename with extension, then base name without extension (the last
replacement target is `base_before_ver + "_v001"`). -/
def rewrite_content (old_ep new_ep old_sq new_sq old_sh new_sh
    latest_fn new_fn base_noext new_base content : String) : String :=
  let c1 := strReplace content old_ep new_ep
  let c2 := strReplace c1 old_sq new_sq
  let c3 := strReplace c2 old_sh new_sh
  let c4 := strReplace c3 latest_fn new_fn
  strReplace c4 base_noext new_base

/-- A match of the regex `<pre>\d+` begins exactly at the head of `s`:
the literal prefix occurs followed by at least one digit. -/
def tokenMatchAt (pre s : List Char) : Prop :=
  isPre pre s = true ∧ (s.drop pre.length).takeWhile Char.isDigit ≠ []

/-- The structured outcome of each `messagebox.showerror` call in
`clone_latest`; `errMsg` recovers the exact dialog text. -/
inductive CloneErr where
  | invalidSource
  | invalidDest
  | missingSrcTokens (ep sq sh : Option String)
  | missingDstTokens (ep sq sh : Option String)
  | sameFolder
  | noCandidates
  | noLatest
  | badLatestName (fn : String)
  | mkdirFailed (e : String)
  | readFailed (path e : String)
  | writeFailed (path e : String)
deriving DecidableEq

/-- The outcome of one run of `clone_latest`: an error dialog, the
user-cancelled status, or the successfully written destination file (path
and content). -/
inductive CloneResult where
  | error (e : CloneErr)
  | canceled
  | success (destPath content : String)
deriving DecidableEq

/-- Python f-string interpolation of an optional token (`None` prints as
`"None"`; the tokens themselves are never the empty string). -/
def optTokenStr : Option String → String
  | none => "None"
  | some s => s

/-- The exact dialog text of each error, as the f-strings in the source
produce it. -/
def errMsg : CloneErr → String
  | .invalidSource => "Please choose a valid Source Shot folder."
  | .invalidDest => "Please choose a Destination Shot folder."
  | .missingSrcTokens ep sq sh =>
    "Source folder must contain ep_###, sq_###, and sh_###.\nFound: ep=" ++
      optTokenStr ep ++ ", sq=" ++ optTokenStr sq ++ ", sh=" ++ optTokenStr sh
  | .missingDstTokens ep sq sh =>
    "Destination folder must contain ep_###, sq_###, and sh_###.\nFound: ep=" ++
      optTokenStr ep ++ ", sq=" ++ optTokenStr sq ++ ", sh=" ++ optTokenStr sh
  | .sameFolder => "Source and Destination folders must differ."
  | .noCandidates => "No Maya ASCII files matching '*_v###.ma' found under source folder."
  | .noLatest => "Could not determine the latest-version .ma file."
  | .badLatestName fn => "Latest .ma filename does not match pattern '*_v###.ma':\n  " ++ fn
  | .mkdirFailed e => "Could not create Destination folder:\n" ++ e
  | .readFailed p e => "Failed to read source .ma:\n" ++ p ++ "\n" ++ e
  | .writeFailed p e => "Failed to write new .ma:\n" ++ p ++ "\n" ++ e

/-- `CloneOneLatestGUI.clone_latest`, with its collaborators as parameters:
`isdir` is `os.path.isdir`; `normpath` is `os.path.normpath` (an oracle, used
only for the identical-folder check); `walk` is the flattened `os.walk`
result under the source folder; `mkdirErr` is the exception text of
`os.makedirs` (or `none` on success); `isfile` is `os.path.isfile`;
`overwrite_ok` is the user's answer to the overwrite prompt; `readf` reads a
file's text (or fails with an exception text); `writeErr` is the exception
text of the final write (or `none` on success).  Control flow, error texts
and the order of all checks follow the source line by line. -/
def clone_latest (source_root dest_root : String)
    (isdir : String → Bool) (normpath : String → String)
    (walk : List (String × String)) (mkdirErr : Option String)
    (isfile : String → Bool) (overwrite_ok : Bool)
    (readf : String → Except String String) (writeErr : Option String) :
    CloneResult :=
  let src := pyStrip source_root
  let dst := pyStrip dest_root
  if src = "" ∨ isdir src = false then .error .invalidSource
  else if dst = "" then .error .invalidDest
  else
    let src_norm := normSlashS src
    let dst_norm := normSlashS dst
    match find_token "ep_" src_norm, find_token "sq_" src_norm, find_token "sh_" src_norm with
    | some oe, some oq, some oh =>
      (match find_token "ep_" dst_norm, find_token "sq_" dst_norm, find_token "sh_" dst_norm with
      | some ne, some nq, some nh =>
        if normpath src = normpath dst then .error .sameFolder
        else
          let all_ma := find_all_ma_files walk
          if all_ma = [] then .error .noCandidates
          else
            match select_highest_version all_ma with
            | none => .error .noLatest
            | some latest_ma =>
              let latest_fn := os_basename latest_ma
              let base_noext := (os_splitext latest_fn).1
              match strip_version_suffix base_noext with
              | none => .error (.badLatestName latest_fn)
              | some base_before_ver =>
                let new_fn := base_before_ver ++ "_v001.ma"
                match mkdirErr with
                | some e => .error (.mkdirFailed e)
                | none =>
                  let dest_fullpath := pyJoin dst new_fn
                  if isfile dest_fullpath = true ∧ overwrite_ok = false then .canceled
                  else
                    match readf latest_ma with
                    | .error e => .error (.readFailed latest_ma e)
                    | .ok content =>
                      let out := rewrite_content oe ne oq nq oh nh latest_fn new_fn
                        base_noext (base_before_ver ++ "_v001") content
                      match writeErr with
                      | some e => .error (.writeFailed dest_fullpath e)
                      | none => .success dest_fullpath out
      | ne, nq, nh => .error (.missingDstTokens ne nq nh))
    | oe, oq, oh => .error (.missingSrcTokens oe oq oh)

/-! ### Unfolding equations for the fuelled scans -/

theorem replaceGo_fuel (pat rep : List Char) :
    ∀ (f1 : Nat) (s : List Char) (f2 : Nat), s.length ≤ f1 → s.length ≤ f2 →
      replaceGo pat rep f1 s = replaceGo pat rep f2 s := by
  intro f1
  induction f1 with
  | zero =>
    intro s f2 h1 _
    cases s with
    | nil => cases f2 <;> rfl
    | cons c r => simp at h1
  | succ f ih =>
    intro s f2 h1 h2
    cases s with
    | nil => cases f2 <;> rfl
    | cons c r =>
      cases f2 with
      | zero => simp at h2
      | succ f2 =>
        simp only [replaceGo]
        by_cases hc : pat ≠ [] ∧ isPre pat (c :: r) = true
        · rw [if_pos hc, if_pos hc]
          congr 1
          have hp : 0 < pat.length := List.length_pos.mpr hc.1
          have hd : ((c :: r).drop pat.length).length ≤ r.length := by
            simp only [List.length_drop, List.length_cons]
            omega
          simp only [List.length_cons] at h1 h2
          apply ih
          · omega
          · omega
        · rw [if_neg hc, if_neg hc]
          simp only [List.length_cons] at h1 h2
          rw [ih r f2 (by omega) (by omega)]

theorem replaceFrom_cons_pos (pat rep : List Char) (c : Char) (rest : List Char)
    (h1 : pat ≠ []) (h2 : isPre pat (c :: rest) = true) :
    replaceFrom pat rep (c :: rest) = rep ++ replaceFrom pat rep ((c :: rest).drop pat.length) := by
  show replaceGo pat rep (rest.length + 1) (c :: rest) = _
  simp only [replaceGo]
  rw [if_pos ⟨h1, h2⟩]
  congr 1
  apply replaceGo_fuel
  · have hp : 0 < pat.length := List.length_pos.mpr h1
    simp only [List.length_drop, List.length_cons]
    omega
  · exact le_refl _

theorem replaceFrom_cons_neg (pat rep : List Char) (c : Char) (rest : List Char)
    (h : ¬(pat ≠ [] ∧ isPre pat (c :: rest) = true)) :
    replaceFrom pat rep (c :: rest) = c :: replaceFrom pat rep rest := by
  show replaceGo pat rep (rest.length + 1) (c :: rest) = _
  simp only [replaceGo]
  rw [if_neg h]
  rfl

theorem splitGo_fuel (pat : List Char) :
    ∀ (f1 : Nat) (s : List Char) (f2 : Nat), s.length ≤ f1 → s.length ≤ f2 →
      splitGo pat f1 s = splitGo pat f2 s := by
  intro f1
  induction f1 with
  | zero =>
    intro s f2 h1 _
    cases s with
    | nil => cases f2 <;> rfl
    | cons c r => simp at h1
  | succ f ih =>
    intro s f2 h1 h2
    cases s with
    | nil => cases f2 <;> rfl
    | cons c r =>
      cases f2 with
      | zero => simp at h2
      | succ f2 =>
        simp only [splitGo]
        by_cases hc : pat ≠ [] ∧ isPre pat (c :: r) = true
        · rw [if_pos hc, if_pos hc]
          congr 1
          have hp : 0 < pat.length := List.length_pos.mpr hc.1
          have hd : ((c :: r).drop pat.length).length ≤ r.length := by
            simp only [List.length_drop, List.length_cons]
            omega
          simp only [List.length_cons] at h1 h2
          apply ih
          · omega
          · omega
        · rw [if_neg hc, if_neg hc]
          simp only [List.length_cons] at h1 h2
          rw [ih r f2 (by omega) (by omega)]

theorem pySplit_cons_pos (pat : List Char) (c : Char) (rest : List Char)
    (h1 : pat ≠ []) (h2 : isPre pat (c :: rest) = true) :
    pySplit pat (c :: rest) = [] :: pySplit pat ((c :: rest).drop pat.length) := by
  show splitGo pat (rest.length + 1) (c :: rest) = _
  simp only [splitGo]
  rw [if_pos ⟨h1, h2⟩]
  congr 1
  apply splitGo_fuel
  · have hp : 0 < pat.length := List.length_pos.mpr h1
    simp only [List.length_drop, List.length_cons]
    omega
  · exact le_refl _

theorem pySplit_cons_neg (pat : List Char) (c : Char) (rest : List Char)
    (h : ¬(pat ≠ [] ∧ isPre pat (c :: rest) = true)) :
    pySplit pat (c :: rest)
      = match pySplit pat rest with
        | [] => [[c]]
        | p :: ps => (c :: p) :: ps := by
  show splitGo pat (rest.length + 1) (c :: rest) = _
  simp only [splitGo]
  rw [if_neg h]
  rfl

/-! ### Properties of `sel_go` / `select_highest_version` -/

theorem sel_go_spec (l : List String) : ∀ (best : Option String) (bv : Int),
    (∀ b, best = some b → ∃ n, verOf b = some n ∧ (n : Int) = bv) →
    (best = none → bv = -1) →
    ((sel_go l best bv = best ∨ ∃ p ∈ l, sel_go l best bv = some p)
      ∧ (∀ r, sel_go l best bv = some r → ∃ m, verOf r = some m ∧ bv ≤ (m : Int))
      ∧ (∀ q ∈ l, ∀ n, verOf q = some n →
          ∃ r m, sel_go l best bv = some r ∧ verOf r = some m ∧ n ≤ m)
      ∧ (∀ b, best = some b → ∃ r, sel_go l best bv = some r)) := by
  induction l with
  | nil =>
    intro best bv hInv _hNone
    refine ⟨Or.inl rfl, ?_, ?_, ?_⟩
    · intro r hr
      simp only [sel_go] at hr
      obtain ⟨n, hn, hbv⟩ := hInv r hr
      exact ⟨n, hn, le_of_eq hbv.symm⟩
    · intro q hq; exact absurd hq (List.not_mem_nil q)
    · intro b hb; exact ⟨b, by simp only [sel_go]; exact hb⟩
  | cons p l ih =>
    intro best bv hInv hNone
    cases hv : verOf p with
    | none =>
      have hstep : sel_go (p :: l) best bv = sel_go l best bv := by
        simp only [sel_go, hv]
      obtain ⟨ih1, ih2, ih3, ih4⟩ := ih best bv hInv hNone
      refine ⟨?_, ?_, ?_, ?_⟩
      · rw [hstep]
        rcases ih1 with h | ⟨q, hq, h⟩
        · exact Or.inl h
        · exact Or.inr ⟨q, List.mem_cons_of_mem p hq, h⟩
      · intro r hr; rw [hstep] at hr; exact ih2 r hr
      · intro q hq n hn
        rcases List.mem_cons.mp hq with rfl | hq'
        · rw [hv] at hn; exact absurd hn (by simp)
        · obtain ⟨r, m, h1, h2, h3⟩ := ih3 q hq' n hn
          exact ⟨r, m, by rw [hstep]; exact h1, h2, h3⟩
      · intro b hb; obtain ⟨r, hr⟩ := ih4 b hb; exact ⟨r, by rw [hstep]; exact hr⟩
    | some v =>
      by_cases hgt : (v : Int) > bv
      · have hstep : sel_go (p :: l) best bv = sel_go l (some p) (v : Int) := by
          simp only [sel_go, hv, if_pos hgt]
        have hInv' : ∀ b, (some p : Option String) = some b → ∃ n, verOf b = some n ∧ (n : Int) = (v : Int) := by
          intro b hb
          obtain rfl : p = b := Option.some_injective _ hb
          exact ⟨v, hv, rfl⟩
        obtain ⟨ih1, ih2, ih3, ih4⟩ := ih (some p) (v : Int) hInv' (by intro h; exact absurd h (by simp))
        refine ⟨?_, ?_, ?_, ?_⟩
        · rw [hstep]
          rcases ih1 with h | ⟨q, hq, h⟩
          · exact Or.inr ⟨p, List.mem_cons_self p l, h⟩
          · exact Or.inr ⟨q, List.mem_cons_of_mem p hq, h⟩
        · intro r hr; rw [hstep] at hr
          obtain ⟨m, hm, hvm⟩ := ih2 r hr
          exact ⟨m, hm, le_trans (le_of_lt hgt) hvm⟩
        · intro q hq n hn
          rcases List.mem_cons.mp hq with rfl | hq'
          · rw [hv] at hn
            obtain rfl : v = n := Option.some_injective _ hn
            obtain ⟨r, hr⟩ := ih4 _ rfl
            obtain ⟨m, hm, hvm⟩ := ih2 r hr
            refine ⟨r, m, by rw [hstep]; exact hr, hm, ?_⟩
            exact_mod_cast hvm
          · obtain ⟨r, m, h1, h2, h3⟩ := ih3 q hq' n hn
            exact ⟨r, m, by rw [hstep]; exact h1, h2, h3⟩
        · intro b _hb
          obtain ⟨r, hr⟩ := ih4 _ rfl
          exact ⟨r, by rw [hstep]; exact hr⟩
      · have hstep : sel_go (p :: l) best bv = sel_go l best bv := by
          simp only [sel_go, hv, if_neg hgt]
        obtain ⟨ih1, ih2, ih3, ih4⟩ := ih best bv hInv hNone
        refine ⟨?_, ?_, ?_, ?_⟩
        · rw [hstep]
          rcases ih1 with h | ⟨q, hq, h⟩
          · exact Or.inl h
          · exact Or.inr ⟨q, List.mem_cons_of_mem p hq, h⟩
        · intro r hr; rw [hstep] at hr; exact ih2 r hr
        · intro q hq n hn
          rcases List.mem_cons.mp hq with rfl | hq'
          · rw [hv] at hn
            obtain rfl : v = n := Option.some_injective _ hn
            -- v ≤ bv, so the current best exists and its version dominates v
            have hb : ∃ b, best = some b := by
              cases hbest : best with
              | none =>
                have : bv = -1 := hNone hbest
                rw [this] at hgt
                exact absurd (by omega : (v : Int) > -1) hgt
              | some b => exact ⟨b, rfl⟩
            obtain ⟨b, hbeq⟩ := hb
            obtain ⟨r, hr⟩ := ih4 b hbeq
            obtain ⟨m, hm, hvm⟩ := ih2 r hr
            refine ⟨r, m, by rw [hstep]; exact hr, hm, ?_⟩
            have : (v : Int) ≤ (m : Int) := le_trans (le_of_not_lt hgt) hvm
            exact_mod_cast this
          · obtain ⟨r, m, h1, h2, h3⟩ := ih3 q hq' n hn
            exact ⟨r, m, by rw [hstep]; exact h1, h2, h3⟩
        · intro b hb; obtain ⟨r, hr⟩ := ih4 b hb; exact ⟨r, by rw [hstep]; exact hr⟩

theorem select_spec (l : List String) (hne : l ≠ [])
    (hall : ∀ p ∈ l, (verOf p).isSome = true) :
    ∃ r, select_highest_version l = some r ∧ r ∈ l ∧
      ∀ q ∈ l, ∀ n m, verOf q = some n → verOf r = some m → n ≤ m := by
  obtain ⟨s1, s2, s3, _s4⟩ := sel_go_spec l none (-1) (by intro b hb; cases hb) (fun _ => rfl)
  cases l with
  | nil => exact absurd rfl hne
  | cons p l =>
    obtain ⟨n0, hn0⟩ := Option.isSome_iff_exists.mp (hall p (List.mem_cons_self p l))
    obtain ⟨r, m, hr, hm, _⟩ := s3 p (List.mem_cons_self p l) n0 hn0
    have hmem : r ∈ p :: l := by
      rcases s1 with h | ⟨q, hq, h⟩
      · rw [h] at hr; cases hr
      · rw [h] at hr; obtain rfl : q = r := Option.some_injective _ hr; exact hq
    refine ⟨r, hr, hmem, ?_⟩
    intro q hq n m' hqn hrm'
    obtain ⟨r', m'', h1, h2, h3⟩ := s3 q hq n hqn
    rw [hr] at h1
    obtain rfl : r = r' := Option.some_injective _ h1
    rw [hrm'] at h2
    obtain rfl : m' = m'' := Option.some_injective _ h2
    exact h3

theorem sel_go_skip (l : List String) : ∀ (best : Option String) (bv : Int),
    (∀ q ∈ l, ∀ n, verOf q = some n → (n : Int) ≤ bv) → sel_go l best bv = best := by
  induction l with
  | nil => intro best bv _; rfl
  | cons p l ih =>
    intro best bv h
    cases hv : verOf p with
    | none => simp only [sel_go, hv]; exact ih best bv (fun q hq => h q (List.mem_cons_of_mem p hq))
    | some v =>
      have hle : (v : Int) ≤ bv := h p (List.mem_cons_self p l) v hv
      simp only [sel_go, hv, if_neg (not_lt.mpr hle)]
      exact ih best bv (fun q hq => h q (List.mem_cons_of_mem p hq))

theorem sel_go_first (p : String) (m : Nat) (l2 : List String)
    (hp : verOf p = some m) (h2 : ∀ q ∈ l2, ∀ n, verOf q = some n → n ≤ m) :
    ∀ (l1 : List String) (best : Option String) (bv : Int), bv < (m : Int) →
      (∀ q ∈ l1, ∀ n, verOf q = some n → n < m) →
      sel_go (l1 ++ p :: l2) best bv = some p := by
  intro l1
  induction l1 with
  | nil =>
    intro best bv hbv _
    simp only [List.nil_append, sel_go, hp, if_pos hbv]
    exact sel_go_skip l2 (some p) (m : Int)
      (fun q hq n hn => by exact_mod_cast Int.ofNat_le.mpr (h2 q hq n hn))
  | cons q l1 ih =>
    intro best bv hbv h1
    have hq : q ∈ q :: l1 := List.mem_cons_self q l1
    cases hv : verOf q with
    | none =>
      simp only [List.cons_append, sel_go, hv]
      exact ih best bv hbv (fun x hx => h1 x (List.mem_cons_of_mem q hx))
    | some v =>
      have hvm : v < m := h1 q hq v hv
      by_cases hgt : (v : Int) > bv
      · simp only [List.cons_append, sel_go, hv, if_pos hgt]
        exact ih (some q) (v : Int) (by exact_mod_cast hvm)
          (fun x hx => h1 x (List.mem_cons_of_mem q hx))
      · simp only [List.cons_append, sel_go, hv, if_neg hgt]
        exact ih best bv hbv (fun x hx => h1 x (List.mem_cons_of_mem q hx))

/-- C2: for every non-empty candidate set whose entries all parse, the
Version Scanner selects an entry of the set whose parsed version integer is
greatest (numeric comparison); among `scene_v1.ma`, `scene_v10.ma`,
`scene_v2.ma` in one directory it selects `scene_v10.ma`; for an empty
candidate set it returns no selection. -/
theorem C2_select_highest_version_numeric_max :
    (∀ (l : List String), l ≠ [] → (∀ p ∈ l, (verOf p).isSome = true) →
      ∃ r, select_highest_version l = some r ∧ r ∈ l ∧
        ∀ q ∈ l, ∀ n m, verOf q = some n → verOf r = some m → n ≤ m)
    ∧ select_highest_version
        ["shots/scene_v1.ma", "shots/scene_v10.ma", "shots/scene_v2.ma"]
        = some "shots/scene_v10.ma"
    ∧ select_highest_version [] = none := by
  refine ⟨select_spec, by decide, rfl⟩

/-- C2 witness: the general clause applied at a concrete candidate list. -/
theorem C2_select_highest_version_numeric_max_witness :
    ∃ r, select_highest_version ["w/a_v2.ma", "w/b_v7.ma"] = some r ∧
      r ∈ ["w/a_v2.ma", "w/b_v7.ma"] ∧
      ∀ q ∈ ["w/a_v2.ma", "w/b_v7.ma"], ∀ n m,
        verOf q = some n → verOf r = some m → n ≤ m :=
  C2_select_highest_version_numeric_max.1 ["w/a_v2.ma", "w/b_v7.ma"]
    (by decide) (by decide)

/-- C5: when several entries share the maximum version, the first entry in
traversal order with that maximum wins, because the comparison is strict:
`select_highest_version` returns the earliest element achieving the
maximum. -/
theorem C5_select_first_on_ties (l1 : List String) (p : String) (l2 : List String)
    (m : Nat) (hp : verOf p = some m)
    (h1 : ∀ q ∈ l1, ∀ n, verOf q = some n → n < m)
    (h2 : ∀ q ∈ l2, ∀ n, verOf q = some n → n ≤ m) :
    select_highest_version (l1 ++ p :: l2) = some p :=
  sel_go_first p m l2 hp h2 l1 none (-1) (by omega) h1

/-- C5 witness: a genuine tie (`b_v5` and `c_v5`) resolved in favour of the
earlier element. -/
theorem C5_select_first_on_ties_witness :
    select_highest_version ["w/a_v2.ma", "w/b_v5.ma", "w/c_v5.ma"] = some "w/b_v5.ma" := by
  have h := C5_select_first_on_ties ["w/a_v2.ma"] "w/b_v5.ma" ["w/c_v5.ma"] 5
    (by decide)
    (by
      intro q hq n hn
      have hq2 : q = "w/a_v2.ma" := by simpa using hq
      subst hq2
      have : verOf "w/a_v2.ma" = some 2 := by decide
      rw [this] at hn
      obtain rfl : (2 : Nat) = n := Option.some_injective _ hn
      omega)
    (by
      intro q hq n hn
      have hq2 : q = "w/c_v5.ma" := by simpa using hq
      subst hq2
      have : verOf "w/c_v5.ma" = some 5 := by decide
      rw [this] at hn
      obtain rfl : (5 : Nat) = n := Option.some_injective _ hn
      omega)
  simpa using h

/-! ### Properties of `ftScan` / `find_token` -/

theorem isPre_self_append (a t : List Char) : isPre a (a ++ t) = true := by
  induction a with
  | nil => rfl
  | cons c a ih => simp [isPre, ih]

theorem not_tokenMatchAt_of_isPre_false (pre s : List Char) (h : isPre pre s = false) :
    ¬ tokenMatchAt pre s := by
  intro hm
  obtain ⟨h1, _⟩ := hm
  rw [h1] at h
  exact absurd h (by decide)

theorem ftScan_cons_neg (pre : List Char) (c : Char) (rest : List Char)
    (h : ¬ tokenMatchAt pre (c :: rest)) :
    ftScan pre (c :: rest) = ftScan pre rest := by
  simp only [ftScan]
  rw [if_neg]
  exact h

theorem ftScan_append (pre a b : List Char)
    (h : ∀ t s : List Char, t ++ s = a → s ≠ [] → ¬ tokenMatchAt pre (s ++ b)) :
    ftScan pre (a ++ b) = ftScan pre b := by
  induction a with
  | nil => rfl
  | cons c a0 ih =>
    have hng : ¬ tokenMatchAt pre (c :: (a0 ++ b)) := by
      have h0 := h [] (c :: a0) rfl (by simp)
      rwa [List.cons_append] at h0
    rw [List.cons_append, ftScan_cons_neg pre _ _ hng]
    exact ih (fun t s ht hs => h (c :: t) s (by rw [List.cons_append, ht]) hs)

theorem ftScan_head_match (pre rest : List Char) (hne : pre ≠ [])
    (hdig : rest.takeWhile Char.isDigit ≠ []) :
    ftScan pre (pre ++ rest) = some (pre ++ rest.takeWhile Char.isDigit) := by
  cases pre with
  | nil => exact absurd rfl hne
  | cons c p' =>
    have hdrop : (c :: (p' ++ rest)).drop (c :: p').length = rest := by
      have := List.drop_left (c :: p') rest
      rwa [List.cons_append] at this
    rw [List.cons_append]
    simp only [ftScan]
    rw [if_pos]
    · rw [hdrop]
    · refine ⟨?_, ?_⟩
      · have := isPre_self_append (c :: p') rest
        rwa [List.cons_append] at this
      · rw [hdrop]; exact hdig

theorem normSlash_id (l : List Char) (h : ∀ c ∈ l, c ≠ '\\') : normSlash l = l := by
  induction l with
  | nil => rfl
  | cons c rest ih =>
    have hc : c ≠ '\\' := h c (List.mem_cons_self c rest)
    have hpre : isPre ['\\'] (c :: rest) = false := by
      simp [isPre]
      exact fun hcc => hc hcc.symm
    show replaceFrom ['\\'] ['/'] (c :: rest) = c :: rest
    rw [replaceFrom_cons_neg _ _ _ _ (by simp [hpre])]
    have ih2 := ih (fun x hx => h x (List.mem_cons_of_mem c hx))
    rw [show replaceFrom ['\\'] ['/'] rest = normSlash rest from rfl, ih2]

theorem append_suffix_cases (a b t s : List Char) (h : t ++ s = a ++ b) :
    (∃ t2, t2 ++ s = b) ∨ ∃ t0 s0, t0 ++ s0 = a ∧ s0 ≠ [] ∧ s = s0 ++ b := by
  rcases List.append_eq_append_iff.mp h with ⟨a2, ha1, ha2⟩ | ⟨c2, _hc1, hc2⟩
  · cases a2 with
    | nil => exact Or.inl ⟨[], by rw [ha2]; simp⟩
    | cons x xs => exact Or.inr ⟨t, x :: xs, ha1.symm, by simp, ha2⟩
  · exact Or.inl ⟨c2, hc2.symm⟩

/-- C4 counterexample: the claim quantifies over every path containing
`ep_12/sq_034/sh_5`, but a path in which an earlier `ep_<digits>` match
occurs — here `ep_1ep_12/sq_034/sh_5` — makes extraction return that first
match, `ep_1`, instead of `ep_12`. -/
theorem C4_counterexample :
    (∃ pre suf : String, "ep_1ep_12/sq_034/sh_5" = pre ++ "ep_12/sq_034/sh_5" ++ suf)
    ∧ find_token "ep_" "ep_1ep_12/sq_034/sh_5" ≠ some "ep_12"
    ∧ find_token "ep_" "ep_1ep_12/sq_034/sh_5" = some "ep_1" :=
  ⟨⟨"ep_1", "", by decide⟩, by decide, by decide⟩

/-- C4 (amended): for every path of the form
`pre ++ "ep_12/sq_034/sh_5" ++ suf` whose separators are already `/`, in
which no match of `ep_\d+` / `sq_\d+` / `sh_\d+` begins inside `pre` and
`suf` does not begin with a digit, the three independent first-match
searches return exactly `ep_12`, `sq_034` and `sh_5`, preserving the digit
count and padding as written; extraction is a pure function of the path. -/
theorem C4_token_extraction (pre suf : List Char)
    (hpre : ∀ c ∈ pre, c ≠ '\\') (hsuf : ∀ c ∈ suf, c ≠ '\\')
    (hdig : suf.takeWhile Char.isDigit = [])
    (hep : ∀ t s : List Char, t ++ s = pre → s ≠ [] →
      ¬ tokenMatchAt ['e', 'p', '_'] (s ++ ("ep_12/sq_034/sh_5".data ++ suf)))
    (hsq : ∀ t s : List Char, t ++ s = pre → s ≠ [] →
      ¬ tokenMatchAt ['s', 'q', '_'] (s ++ ("ep_12/sq_034/sh_5".data ++ suf)))
    (hsh : ∀ t s : List Char, t ++ s = pre → s ≠ [] →
      ¬ tokenMatchAt ['s', 'h', '_'] (s ++ ("ep_12/sq_034/sh_5".data ++ suf))) :
    find_token "ep_" ⟨pre ++ "ep_12/sq_034/sh_5".data ++ suf⟩ = some "ep_12"
    ∧ find_token "sq_" ⟨pre ++ "ep_12/sq_034/sh_5".data ++ suf⟩ = some "sq_034"
    ∧ find_token "sh_" ⟨pre ++ "ep_12/sq_034/sh_5".data ++ suf⟩ = some "sh_5" := by
  have hM : ∀ c ∈ "ep_12/sq_034/sh_5".data, c ≠ '\\' := by decide
  have hall : ∀ c ∈ pre ++ "ep_12/sq_034/sh_5".data ++ suf, c ≠ '\\' := by
    intro c hc
    rcases List.mem_append.mp hc with hc1 | hc2
    · rcases List.mem_append.mp hc1 with hc3 | hc4
      · exact hpre c hc3
      · exact hM c hc4
    · exact hsuf c hc2
  have hnorm : normSlash (pre ++ "ep_12/sq_034/sh_5".data ++ suf)
      = pre ++ "ep_12/sq_034/sh_5".data ++ suf := normSlash_id _ hall
  refine ⟨?_, ?_, ?_⟩
  · show (ftScan "ep_".data (normSlash (pre ++ "ep_12/sq_034/sh_5".data ++ suf))).map
      (fun l => String.mk l) = some "ep_12"
    rw [hnorm, List.append_assoc]
    rw [ftScan_append "ep_".data pre ("ep_12/sq_034/sh_5".data ++ suf) hep]
    rw [show "ep_12/sq_034/sh_5".data ++ suf = "ep_".data ++ ("12/sq_034/sh_5".data ++ suf) by
      rw [← List.append_assoc]; rfl]
    rw [ftScan_head_match "ep_".data ("12/sq_034/sh_5".data ++ suf) (by decide)
      (by rw [show ("12/sq_034/sh_5".data ++ suf).takeWhile Char.isDigit = ['1', '2'] from rfl]; simp)]
    rw [show ("12/sq_034/sh_5".data ++ suf).takeWhile Char.isDigit = ['1', '2'] from rfl]
    rfl
  · show (ftScan "sq_".data (normSlash (pre ++ "ep_12/sq_034/sh_5".data ++ suf))).map
      (fun l => String.mk l) = some "sq_034"
    rw [hnorm]
    rw [show pre ++ "ep_12/sq_034/sh_5".data ++ suf
        = (pre ++ "ep_12/".data) ++ ("sq_034/sh_5".data ++ suf) by
      simp [List.append_assoc]]
    rw [ftScan_append "sq_".data (pre ++ "ep_12/".data) ("sq_034/sh_5".data ++ suf) ?hsq2]
    case hsq2 =>
      intro t s ht hs
      rcases append_suffix_cases pre "ep_12/".data t s ht with ⟨t2, ht2⟩ | ⟨t0, s0, ht0, hs0, rfl⟩
      · obtain ⟨n, hn, rfl⟩ : ∃ n, n < 6 ∧ s = "ep_12/".data.drop n := by
          refine ⟨t2.length, ?_, ?_⟩
          · have hlen := congrArg List.length ht2
            rw [List.length_append] at hlen
            have hpos : 0 < s.length := List.length_pos.mpr hs
            rw [show ("ep_12/".data).length = 6 from rfl] at hlen
            omega
          · rw [← ht2]
            exact (List.drop_left t2 s).symm
        rcases n with _ | _ | _ | _ | _ | _ | n
        · exact not_tokenMatchAt_of_isPre_false _ _ rfl
        · exact not_tokenMatchAt_of_isPre_false _ _ rfl
        · exact not_tokenMatchAt_of_isPre_false _ _ rfl
        · exact not_tokenMatchAt_of_isPre_false _ _ rfl
        · exact not_tokenMatchAt_of_isPre_false _ _ rfl
        · exact not_tokenMatchAt_of_isPre_false _ _ rfl
        · omega
      · have h0 := hsq t0 s0 ht0 hs0
        rw [show (s0 ++ "ep_12/".data) ++ ("sq_034/sh_5".data ++ suf)
            = s0 ++ ("ep_12/sq_034/sh_5".data ++ suf) by simp [List.append_assoc]]
        exact h0
    rw [show "sq_034/sh_5".data ++ suf = "sq_".data ++ ("034/sh_5".data ++ suf) by
      rw [← List.append_assoc]; rfl]
    rw [ftScan_head_match "sq_".data ("034/sh_5".data ++ suf) (by decide)
      (by rw [show ("034/sh_5".data ++ suf).takeWhile Char.isDigit = ['0', '3', '4'] from rfl]; simp)]
    rw [show ("034/sh_5".data ++ suf).takeWhile Char.isDigit = ['0', '3', '4'] from rfl]
    rfl
  · show (ftScan "sh_".data (normSlash (pre ++ "ep_12/sq_034/sh_5".data ++ suf))).map
      (fun l => String.mk l) = some "sh_5"
    rw [hnorm]
    rw [show pre ++ "ep_12/sq_034/sh_5".data ++ suf
        = (pre ++ "ep_12/sq_034/".data) ++ ("sh_5".data ++ suf) by
      simp [List.append_assoc]]
    rw [ftScan_append "sh_".data (pre ++ "ep_12/sq_034/".data) ("sh_5".data ++ suf) ?hsh2]
    case hsh2 =>
      intro t s ht hs
      rcases append_suffix_cases pre "ep_12/sq_034/".data t s ht with ⟨t2, ht2⟩ | ⟨t0, s0, ht0, hs0, rfl⟩
      · obtain ⟨n, hn, rfl⟩ : ∃ n, n < 13 ∧ s = "ep_12/sq_034/".data.drop n := by
          refine ⟨t2.length, ?_, ?_⟩
          · have hlen := congrArg List.length ht2
            rw [List.length_append] at hlen
            have hpos : 0 < s.length := List.length_pos.mpr hs
            rw [show ("ep_12/sq_034/".data).length = 13 from rfl] at hlen
            omega
          · rw [← ht2]
            exact (List.drop_left t2 s).symm
        rcases n with _ | _ | _ | _ | _ | _ | _ | _ | _ | _ | _ | _ | _ | n
        · exact not_tokenMatchAt_of_isPre_false _ _ rfl
        · exact not_tokenMatchAt_of_isPre_false _ _ rfl
        · exact not_tokenMatchAt_of_isPre_false _ _ rfl
        · exact not_tokenMatchAt_of_isPre_false _ _ rfl
        · exact not_tokenMatchAt_of_isPre_false _ _ rfl
        · exact not_tokenMatchAt_of_isPre_false _ _ rfl
        · exact not_tokenMatchAt_of_isPre_false _ _ rfl
        · exact not_tokenMatchAt_of_isPre_false _ _ rfl
        · exact not_tokenMatchAt_of_isPre_false _ _ rfl
        · exact not_tokenMatchAt_of_isPre_false _ _ rfl
        · exact not_tokenMatchAt_of_isPre_false _ _ rfl
        · exact not_tokenMatchAt_of_isPre_false _ _ rfl
        · exact not_tokenMatchAt_of_isPre_false _ _ rfl
        · omega
      · have h0 := hsh t0 s0 ht0 hs0
        rw [show (s0 ++ "ep_12/sq_034/".data) ++ ("sh_5".data ++ suf)
            = s0 ++ ("ep_12/sq_034/sh_5".data ++ suf) by simp [List.append_assoc]]
        exact h0
    rw [show "sh_5".data ++ suf = "sh_".data ++ ('5' :: suf) by rfl]
    have ht5 : ('5' :: suf).takeWhile Char.isDigit = ['5'] := by
      rw [List.takeWhile_cons]
      simp [hdig]
    rw [ftScan_head_match "sh_".data ('5' :: suf) (by decide) (by rw [ht5]; simp)]
    rw [ht5]
    rfl

/-- C4 witness: the amended theorem instantiated with empty `pre` and
`suf`, i.e. at the path `ep_12/sq_034/sh_5` itself. -/
theorem C4_token_extraction_witness :
    find_token "ep_" ⟨[] ++ "ep_12/sq_034/sh_5".data ++ []⟩ = some "ep_12"
    ∧ find_token "sq_" ⟨[] ++ "ep_12/sq_034/sh_5".data ++ []⟩ = some "sq_034"
    ∧ find_token "sh_" ⟨[] ++ "ep_12/sq_034/sh_5".data ++ []⟩ = some "sh_5" :=
  C4_token_extraction [] [] (by simp) (by simp) rfl
    (fun t s ht hs => absurd (List.append_eq_nil.mp ht).2 hs)
    (fun t s ht hs => absurd (List.append_eq_nil.mp ht).2 hs)
    (fun t s ht hs => absurd (List.append_eq_nil.mp ht).2 hs)

/-- C1: end-to-end: with a source directory path containing
`ep_01/sq_010/sh_020` holding `lighting_v003.ma` whose content includes
`ep_01_sq_010_sh_020_lighting_v003`, and a destination path containing
`ep_02/sq_020/sh_030`, a successful run writes exactly one file, named
`lighting_v001.ma`, into the destination directory; its content contains
`ep_02_sq_020_sh_030_lighting_v001` and no remaining occurrence of `ep_01`,
`sq_010`, `sh_020` or `_v003`. -/
theorem C1_end_to_end :
    clone_latest "/proj/ep_01/sq_010/sh_020/work" "/proj/ep_02/sq_020/sh_030/work"
        (fun _ => true) id [("/proj/ep_01/sq_010/sh_020/work", "lighting_v003.ma")] none
        (fun _ => false) true
        (fun _ => Except.ok "requires ep_01_sq_010_sh_020_lighting_v003 maya") none
      = CloneResult.success "/proj/ep_02/sq_020/sh_030/work/lighting_v001.ma"
          "requires ep_02_sq_020_sh_030_lighting_v001 maya"
    ∧ "/proj/ep_02/sq_020/sh_030/work/lighting_v001.ma"
        = pyJoin "/proj/ep_02/sq_020/sh_030/work" "lighting_v001.ma"
    ∧ containsSubS "ep_02_sq_020_sh_030_lighting_v001"
        "requires ep_02_sq_020_sh_030_lighting_v001 maya" = true
    ∧ containsSubS "ep_01" "requires ep_02_sq_020_sh_030_lighting_v001 maya" = false
    ∧ containsSubS "sq_010" "requires ep_02_sq_020_sh_030_lighting_v001 maya" = false
    ∧ containsSubS "sh_020" "requires ep_02_sq_020_sh_030_lighting_v001 maya" = false
    ∧ containsSubS "_v003" "requires ep_02_sq_020_sh_030_lighting_v001 maya" = false := by
  decide

/-! ### The success path of `clone_latest` -/

theorem clone_latest_run (source_root dest_root : String) (isdir : String → Bool)
    (normpath : String → String) (walk : List (String × String)) (mkdirErr : Option String)
    (isfile : String → Bool) (overwrite_ok : Bool) (readf : String → Except String String)
    (writeErr : Option String)
    (oe oq oh nep nq nh lp bb : String)
    (h1 : pyStrip source_root ≠ "") (h2 : isdir (pyStrip source_root) = true)
    (h3 : pyStrip dest_root ≠ "")
    (hoe : find_token "ep_" (normSlashS (pyStrip source_root)) = some oe)
    (hoq : find_token "sq_" (normSlashS (pyStrip source_root)) = some oq)
    (hoh : find_token "sh_" (normSlashS (pyStrip source_root)) = some oh)
    (hne : find_token "ep_" (normSlashS (pyStrip dest_root)) = some nep)
    (hnq : find_token "sq_" (normSlashS (pyStrip dest_root)) = some nq)
    (hnh : find_token "sh_" (normSlashS (pyStrip dest_root)) = some nh)
    (hdiff : normpath (pyStrip source_root) ≠ normpath (pyStrip dest_root))
    (hfa : find_all_ma_files walk ≠ [])
    (hsel : select_highest_version (find_all_ma_files walk) = some lp)
    (hstrip : strip_version_suffix ((os_splitext (os_basename lp)).1) = some bb)
    (hmk : mkdirErr = none) :
    clone_latest source_root dest_root isdir normpath walk mkdirErr isfile overwrite_ok readf writeErr
      = if isfile (pyJoin (pyStrip dest_root) (bb ++ "_v001.ma")) = true ∧ overwrite_ok = false
        then CloneResult.canceled
        else
          match readf lp with
          | Except.error e => CloneResult.error (CloneErr.readFailed lp e)
          | Except.ok content =>
            match writeErr with
            | some e => CloneResult.error
                (CloneErr.writeFailed (pyJoin (pyStrip dest_root) (bb ++ "_v001.ma")) e)
            | none => CloneResult.success (pyJoin (pyStrip dest_root) (bb ++ "_v001.ma"))
                (rewrite_content oe nep oq nq oh nh (os_basename lp) (bb ++ "_v001.ma")
                  ((os_splitext (os_basename lp)).1) (bb ++ "_v001") content) := by
  subst hmk
  simp only [clone_latest, hoe, hoq, hoh, hne, hnq, hnh, hsel, hstrip]
  rw [if_neg (show ¬(pyStrip source_root = "" ∨ isdir (pyStrip source_root) = false) from by
    simp [h1, h2])]
  rw [if_neg h3]
  rw [if_neg hdiff]
  rw [if_neg hfa]

/-- C7: when the computed destination file already exists, the run asks the
yes/no overwrite question before any read of the source file or write of the
destination, and a declined answer is a non-error cancellation: the result
is `canceled` for every possible reader and writer outcome, so the file
written by an earlier run is left untouched. -/
theorem C7_decline_overwrite_cancels (source_root dest_root : String) (isdir : String → Bool)
    (normpath : String → String) (walk : List (String × String)) (mkdirErr : Option String)
    (isfile : String → Bool) (overwrite_ok : Bool) (readf : String → Except String String)
    (writeErr : Option String)
    (oe oq oh nep nq nh lp bb : String)
    (h1 : pyStrip source_root ≠ "") (h2 : isdir (pyStrip source_root) = true)
    (h3 : pyStrip dest_root ≠ "")
    (hoe : find_token "ep_" (normSlashS (pyStrip source_root)) = some oe)
    (hoq : find_token "sq_" (normSlashS (pyStrip source_root)) = some oq)
    (hoh : find_token "sh_" (normSlashS (pyStrip source_root)) = some oh)
    (hne : find_token "ep_" (normSlashS (pyStrip dest_root)) = some nep)
    (hnq : find_token "sq_" (normSlashS (pyStrip dest_root)) = some nq)
    (hnh : find_token "sh_" (normSlashS (pyStrip dest_root)) = some nh)
    (hdiff : normpath (pyStrip source_root) ≠ normpath (pyStrip dest_root))
    (hfa : find_all_ma_files walk ≠ [])
    (hsel : select_highest_version (find_all_ma_files walk) = some lp)
    (hstrip : strip_version_suffix ((os_splitext (os_basename lp)).1) = some bb)
    (hmk : mkdirErr = none)
    (hex : isfile (pyJoin (pyStrip dest_root) (bb ++ "_v001.ma")) = true)
    (hans : overwrite_ok = false) :
    clone_latest source_root dest_root isdir normpath walk mkdirErr isfile overwrite_ok readf writeErr
      = CloneResult.canceled := by
  rw [clone_latest_run source_root dest_root isdir normpath walk mkdirErr isfile overwrite_ok
    readf writeErr oe oq oh nep nq nh lp bb h1 h2 h3 hoe hoq hoh hne hnq hnh hdiff hfa hsel
    hstrip hmk]
  rw [if_pos ⟨hex, hans⟩]

/-- C7 witness: the end-to-end scenario rerun with the destination file
already present and the overwrite question answered "no". -/
theorem C7_decline_overwrite_cancels_witness :
    clone_latest "/proj/ep_01/sq_010/sh_020/work" "/proj/ep_02/sq_020/sh_030/work"
        (fun _ => true) id [("/proj/ep_01/sq_010/sh_020/work", "lighting_v003.ma")] none
        (fun _ => true) false
        (fun _ => Except.ok "requires ep_01_sq_010_sh_020_lighting_v003 maya") none
      = CloneResult.canceled :=
  C7_decline_overwrite_cancels "/proj/ep_01/sq_010/sh_020/work" "/proj/ep_02/sq_020/sh_030/work"
    (fun _ => true) id [("/proj/ep_01/sq_010/sh_020/work", "lighting_v003.ma")] none
    (fun _ => true) false
    (fun _ => Except.ok "requires ep_01_sq_010_sh_020_lighting_v003 maya") none
    "ep_01" "sq_010" "sh_020" "ep_02" "sq_020" "sh_030"
    "/proj/ep_01/sq_010/sh_020/work/lighting_v003.ma" "lighting"
    (by decide) rfl (by decide)
    (by decide) (by decide) (by decide) (by decide) (by decide) (by decide)
    (by decide) (by decide) (by decide) (by decide) rfl rfl rfl

/-! ### `str.replace` as join-of-split: every occurrence is replaced -/

theorem isPre_iff (a : List Char) : ∀ b, isPre a b = true ↔ ∃ t, b = a ++ t := by
  induction a with
  | nil => intro b; simp [isPre]
  | cons x xs ih =>
    intro b
    cases b with
    | nil => simp [isPre]
    | cons y ys =>
      simp only [isPre, Bool.and_eq_true, decide_eq_true_eq, ih ys]
      constructor
      · rintro ⟨rfl, t, rfl⟩
        exact ⟨t, by rw [List.cons_append]⟩
      · rintro ⟨t, ht⟩
        rw [List.cons_append] at ht
        injection ht with h1 h2
        exact ⟨h1.symm, t, h2⟩

theorem isPre_eq_append (pat s : List Char) (h : isPre pat s = true) :
    s = pat ++ s.drop pat.length := by
  obtain ⟨t, rfl⟩ := (isPre_iff pat s).mp h
  rw [List.drop_left]

theorem containsSub_nil (pat : List Char) (hpat : pat ≠ []) : containsSub pat [] = false := by
  cases pat with
  | nil => exact absurd rfl hpat
  | cons x xs => rfl

theorem joinWith_cons_head (sep : List Char) (c : Char) (h : List Char) (t : List (List Char)) :
    joinWith sep ((c :: h) :: t) = c :: joinWith sep (h :: t) := by
  cases t with
  | nil => rfl
  | cons x xs => simp [joinWith]

theorem pySplit_shape (pat : List Char) :
    ∀ (n : Nat) (s : List Char), s.length ≤ n →
      ∃ h t, pySplit pat s = h :: t ∧ ∃ u, h ++ u = s := by
  intro n
  induction n with
  | zero =>
    intro s hs
    cases s with
    | nil => exact ⟨[], [], rfl, [], rfl⟩
    | cons c rest => simp at hs
  | succ n ih =>
    intro s hs
    cases s with
    | nil => exact ⟨[], [], rfl, [], rfl⟩
    | cons c rest =>
      by_cases hc : pat ≠ [] ∧ isPre pat (c :: rest) = true
      · rw [pySplit_cons_pos pat c rest hc.1 hc.2]
        exact ⟨[], _, rfl, c :: rest, rfl⟩
      · rw [pySplit_cons_neg pat c rest hc]
        simp only [List.length_cons] at hs
        obtain ⟨h, t, heq, u, hu⟩ := ih rest (by omega)
        rw [heq]
        exact ⟨c :: h, t, rfl, u, by rw [List.cons_append, hu]⟩

theorem joinWith_pySplit (pat : List Char) (hpat : pat ≠ []) :
    ∀ (n : Nat) (s : List Char), s.length ≤ n → joinWith pat (pySplit pat s) = s := by
  intro n
  induction n with
  | zero =>
    intro s hs
    cases s with
    | nil => rfl
    | cons c rest => simp at hs
  | succ n ih =>
    intro s hs
    cases s with
    | nil => rfl
    | cons c rest =>
      by_cases hc : pat ≠ [] ∧ isPre pat (c :: rest) = true
      · rw [pySplit_cons_pos pat c rest hc.1 hc.2]
        have hp : 0 < pat.length := List.length_pos.mpr hpat
        have hd : ((c :: rest).drop pat.length).length ≤ n := by
          simp only [List.length_drop, List.length_cons]
          simp only [List.length_cons] at hs
          omega
        obtain ⟨h, t, heq, u, hu⟩ := pySplit_shape pat n _ hd
        rw [heq, show joinWith pat ([] :: h :: t) = pat ++ joinWith pat (h :: t) from rfl]
        rw [← heq, ih _ hd]
        exact (isPre_eq_append pat (c :: rest) hc.2).symm
      · rw [pySplit_cons_neg pat c rest hc]
        simp only [List.length_cons] at hs
        obtain ⟨h, t, heq, u, hu⟩ := pySplit_shape pat n rest (by omega)
        rw [heq]
        show joinWith pat ((c :: h) :: t) = c :: rest
        rw [joinWith_cons_head, ← heq, ih rest (by omega)]

theorem replaceFrom_joinWith (pat rep : List Char) (hpat : pat ≠ []) :
    ∀ (n : Nat) (s : List Char), s.length ≤ n →
      replaceFrom pat rep s = joinWith rep (pySplit pat s) := by
  intro n
  induction n with
  | zero =>
    intro s hs
    cases s with
    | nil => rfl
    | cons c rest => simp at hs
  | succ n ih =>
    intro s hs
    cases s with
    | nil => rfl
    | cons c rest =>
      by_cases hc : pat ≠ [] ∧ isPre pat (c :: rest) = true
      · rw [pySplit_cons_pos pat c rest hc.1 hc.2, replaceFrom_cons_pos pat rep c rest hc.1 hc.2]
        have hp : 0 < pat.length := List.length_pos.mpr hpat
        have hd : ((c :: rest).drop pat.length).length ≤ n := by
          simp only [List.length_drop, List.length_cons]
          simp only [List.length_cons] at hs
          omega
        obtain ⟨h, t, heq, u, hu⟩ := pySplit_shape pat n _ hd
        rw [heq, show joinWith rep ([] :: h :: t) = rep ++ joinWith rep (h :: t) from rfl]
        rw [← heq, ih _ hd]
      · rw [pySplit_cons_neg pat c rest hc, replaceFrom_cons_neg pat rep c rest hc]
        simp only [List.length_cons] at hs
        obtain ⟨h, t, heq, u, hu⟩ := pySplit_shape pat n rest (by omega)
        rw [heq]
        show c :: replaceFrom pat rep rest = joinWith rep ((c :: h) :: t)
        rw [joinWith_cons_head, ← heq, ih rest (by omega)]

theorem pySplit_pieces (pat : List Char) (hpat : pat ≠ []) :
    ∀ (n : Nat) (s : List Char), s.length ≤ n →
      ∀ p ∈ pySplit pat s, containsSub pat p = false := by
  intro n
  induction n with
  | zero =>
    intro s hs p hp
    cases s with
    | nil =>
      have hp0 : p = [] := by simpa [pySplit, splitGo] using hp
      subst hp0
      exact containsSub_nil pat hpat
    | cons c rest => simp at hs
  | succ n ih =>
    intro s hs p hp
    cases s with
    | nil =>
      have hp0 : p = [] := by simpa [pySplit, splitGo] using hp
      subst hp0
      exact containsSub_nil pat hpat
    | cons c rest =>
      by_cases hc : pat ≠ [] ∧ isPre pat (c :: rest) = true
      · rw [pySplit_cons_pos pat c rest hc.1 hc.2] at hp
        have hp2 : 0 < pat.length := List.length_pos.mpr hpat
        have hd : ((c :: rest).drop pat.length).length ≤ n := by
          simp only [List.length_drop, List.length_cons]
          simp only [List.length_cons] at hs
          omega
        rcases List.mem_cons.mp hp with rfl | hp2
        · exact containsSub_nil pat hpat
        · exact ih _ hd p hp2
      · rw [pySplit_cons_neg pat c rest hc] at hp
        simp only [List.length_cons] at hs
        obtain ⟨h, t, heq, u, hu⟩ := pySplit_shape pat n rest (by omega)
        rw [heq] at hp
        have hnp : isPre pat (c :: rest) = false := by
          rcases Bool.eq_false_or_eq_true (isPre pat (c :: rest)) with ht | hf
          · exact absurd ⟨hpat, ht⟩ hc
          · exact hf
        rcases List.mem_cons.mp hp with rfl | hp2
        · show containsSub pat (c :: h) = false
          have hnp2 : isPre pat (c :: h) = false := by
            rcases Bool.eq_false_or_eq_true (isPre pat (c :: h)) with ht | hf
            case inr => exact hf
            case inl =>
              exfalso
              obtain ⟨w, hw⟩ := (isPre_iff pat (c :: h)).mp ht
              have hext : c :: rest = pat ++ (w ++ u) := by
                calc c :: rest = (c :: h) ++ u := by rw [List.cons_append, hu]
                  _ = (pat ++ w) ++ u := by rw [hw]
                  _ = pat ++ (w ++ u) := List.append_assoc pat w u
              rw [(isPre_iff pat (c :: rest)).mpr ⟨w ++ u, hext⟩] at hnp
              exact absurd hnp (by decide)
          have hmem : h ∈ pySplit pat rest := by rw [heq]; exact List.mem_cons_self h t
          simp only [containsSub, hnp2, Bool.false_or]
          exact ih rest (by omega) h hmem
        · have hmem : p ∈ pySplit pat rest := by rw [heq]; exact List.mem_cons_of_mem h hp2
          exact ih rest (by omega) p hmem

/-! ### String-level glue -/

theorem string_eta (s : String) : String.mk s.data = s := by
  cases s
  rfl

theorem data_ne_nil (s : String) (h : s ≠ "") : s.data ≠ [] := by
  intro hd
  apply h
  cases s with
  | mk d =>
    have hd2 : d = [] := hd
    subst hd2
    rfl

theorem replaceFrom_id (pat rep : List Char) (hpat : pat ≠ []) :
    ∀ (n : Nat) (s : List Char), s.length ≤ n → containsSub pat s = false →
      replaceFrom pat rep s = s := by
  intro n
  induction n with
  | zero =>
    intro s hs _
    cases s with
    | nil => rfl
    | cons c rest => simp at hs
  | succ n ih =>
    intro s hs hcon
    cases s with
    | nil => rfl
    | cons c rest =>
      simp only [containsSub, Bool.or_eq_false_iff] at hcon
      obtain ⟨hnp, hrest⟩ := hcon
      rw [replaceFrom_cons_neg pat rep c rest (by
        intro hand
        rw [hand.2] at hnp
        exact absurd hnp (by decide))]
      simp only [List.length_cons] at hs
      rw [ih rest (by omega) hrest]

theorem strReplace_id (s pat rep : String) (hpat : pat ≠ "")
    (h : containsSubS pat s = false) : strReplace s pat rep = s := by
  have hd := data_ne_nil pat hpat
  show String.mk (pyReplace s.data pat.data rep.data) = s
  rw [pyReplace, if_neg hd,
    replaceFrom_id pat.data rep.data hd s.data.length s.data (le_refl _) h, string_eta]

/-- C3: the Content Rewriter applies exactly five literal, global,
non-overlapping substring replacements in the fixed source order — episode
token, sequence token, shot token, filename with extension, and finally the
filename without extension replaced by base-name + "_v001" — each applied
across the entire current content, so later replacements see the result of
earlier ones.  First conjunct: a single `str.replace` is the global
non-overlapping literal replacement (the content is the join of its split at
the pattern, every seam is replaced, and no occurrence survives inside a
piece).  Second conjunct: on the success path the written content is exactly
the five-fold nested composition in source order, fully computed as a pure
value before the write happens. -/
theorem C3_content_rewriter :
    (∀ (s pat rep : String), pat ≠ "" →
      strReplace s pat rep = String.mk (joinWith rep.data (pySplit pat.data s.data))
      ∧ String.mk (joinWith pat.data (pySplit pat.data s.data)) = s
      ∧ ∀ p ∈ pySplit pat.data s.data, containsSub pat.data p = false)
    ∧ (∀ (source_root dest_root : String) (isdir : String → Bool) (normpath : String → String)
        (walk : List (String × String)) (mkdirErr : Option String) (isfile : String → Bool)
        (overwrite_ok : Bool) (readf : String → Except String String) (writeErr : Option String)
        (oe oq oh nep nq nh lp bb content : String),
        pyStrip source_root ≠ "" → isdir (pyStrip source_root) = true →
        pyStrip dest_root ≠ "" →
        find_token "ep_" (normSlashS (pyStrip source_root)) = some oe →
        find_token "sq_" (normSlashS (pyStrip source_root)) = some oq →
        find_token "sh_" (normSlashS (pyStrip source_root)) = some oh →
        find_token "ep_" (normSlashS (pyStrip dest_root)) = some nep →
        find_token "sq_" (normSlashS (pyStrip dest_root)) = some nq →
        find_token "sh_" (normSlashS (pyStrip dest_root)) = some nh →
        normpath (pyStrip source_root) ≠ normpath (pyStrip dest_root) →
        find_all_ma_files walk ≠ [] →
        select_highest_version (find_all_ma_files walk) = some lp →
        strip_version_suffix ((os_splitext (os_basename lp)).1) = some bb →
        mkdirErr = none →
        ¬(isfile (pyJoin (pyStrip dest_root) (bb ++ "_v001.ma")) = true ∧ overwrite_ok = false) →
        readf lp = Except.ok content →
        writeErr = none →
        clone_latest source_root dest_root isdir normpath walk mkdirErr isfile
            overwrite_ok readf writeErr
          = CloneResult.success (pyJoin (pyStrip dest_root) (bb ++ "_v001.ma"))
              (strReplace (strReplace (strReplace (strReplace (strReplace content oe nep)
                oq nq) oh nh) (os_basename lp) (bb ++ "_v001.ma"))
                ((os_splitext (os_basename lp)).1) (bb ++ "_v001"))) := by
  constructor
  · intro s pat rep hpat
    have hd : pat.data ≠ [] := data_ne_nil pat hpat
    refine ⟨?_, ?_, ?_⟩
    · show String.mk (pyReplace s.data pat.data rep.data) = _
      rw [pyReplace, if_neg hd,
        replaceFrom_joinWith pat.data rep.data hd s.data.length s.data (le_refl _)]
    · rw [joinWith_pySplit pat.data hd s.data.length s.data (le_refl _), string_eta]
    · exact pySplit_pieces pat.data hd s.data.length s.data (le_refl _)
  · intro source_root dest_root isdir normpath walk mkdirErr isfile overwrite_ok readf writeErr
      oe oq oh nep nq nh lp bb content
      h1 h2 h3 hoe hoq hoh hne hnq hnh hdiff hfa hsel hstrip hmk hover hread hw
    rw [clone_latest_run source_root dest_root isdir normpath walk mkdirErr isfile overwrite_ok
      readf writeErr oe oq oh nep nq nh lp bb h1 h2 h3 hoe hoq hoh hne hnq hnh hdiff hfa hsel
      hstrip hmk]
    rw [if_neg hover, hread]
    subst hw
    rfl

/-- C3 witness: the single-replacement characterisation at a concrete
string, and the success path of the end-to-end scenario. -/
theorem C3_content_rewriter_witness :
    (strReplace "xax" "a" "b" = String.mk (joinWith "b".data (pySplit "a".data "xax".data))
     ∧ String.mk (joinWith "a".data (pySplit "a".data "xax".data)) = "xax"
     ∧ ∀ p ∈ pySplit "a".data "xax".data, containsSub "a".data p = false)
    ∧ clone_latest "/proj/ep_01/sq_010/sh_020/work" "/proj/ep_02/sq_020/sh_030/work"
        (fun _ => true) id [("/proj/ep_01/sq_010/sh_020/work", "lighting_v003.ma")] none
        (fun _ => false) true (fun _ => Except.ok "scene lighting_v003.ma data") none
      = CloneResult.success "/proj/ep_02/sq_020/sh_030/work/lighting_v001.ma"
          (strReplace (strReplace (strReplace (strReplace (strReplace
            "scene lighting_v003.ma data" "ep_01" "ep_02") "sq_010" "sq_020") "sh_020" "sh_030")
            (os_basename "/proj/ep_01/sq_010/sh_020/work/lighting_v003.ma")
            ("lighting" ++ "_v001.ma"))
            ((os_splitext (os_basename "/proj/ep_01/sq_010/sh_020/work/lighting_v003.ma")).1)
            ("lighting" ++ "_v001")) :=
  ⟨C3_content_rewriter.1 "xax" "a" "b" (by decide),
   C3_content_rewriter.2 "/proj/ep_01/sq_010/sh_020/work" "/proj/ep_02/sq_020/sh_030/work"
     (fun _ => true) id [("/proj/ep_01/sq_010/sh_020/work", "lighting_v003.ma")] none
     (fun _ => false) true (fun _ => Except.ok "scene lighting_v003.ma data") none
     "ep_01" "sq_010" "sh_020" "ep_02" "sq_020" "sh_030"
     "/proj/ep_01/sq_010/sh_020/work/lighting_v003.ma" "lighting" "scene lighting_v003.ma data"
     (by decide) rfl (by decide) (by decide) (by decide) (by decide) (by decide) (by decide)
     (by decide) (by decide) (by decide) (by decide) rfl rfl (by simp) rfl rfl⟩

/-- C8: identity on token-free content: content containing no occurrence of
the old episode, sequence or shot token and no occurrence of the old
filename (with or without extension) passes through the five-step rewrite
unchanged; conversely a single replacement replaces every literal
occurrence: the content is the join of its pattern-split, every seam gets
the replacement, and no occurrence of the pattern survives inside any
piece. -/
theorem C8_identity_on_token_free :
    (∀ (old_ep new_ep old_sq new_sq old_sh new_sh latest_fn new_fn
        base_noext new_base content : String),
      old_ep ≠ "" → old_sq ≠ "" → old_sh ≠ "" → latest_fn ≠ "" → base_noext ≠ "" →
      containsSubS old_ep content = false → containsSubS old_sq content = false →
      containsSubS old_sh content = false → containsSubS latest_fn content = false →
      containsSubS base_noext content = false →
      rewrite_content old_ep new_ep old_sq new_sq old_sh new_sh latest_fn new_fn
        base_noext new_base content = content)
    ∧ (∀ (s pat rep : String), pat ≠ "" →
        String.mk (joinWith pat.data (pySplit pat.data s.data)) = s
        ∧ strReplace s pat rep = String.mk (joinWith rep.data (pySplit pat.data s.data))
        ∧ ∀ p ∈ pySplit pat.data s.data, containsSub pat.data p = false) := by
  constructor
  · intro old_ep new_ep old_sq new_sq old_sh new_sh latest_fn new_fn base_noext new_base content
      hep hsq hsh hfn hbx hcep hcsq hcsh hcfn hcbx
    show strReplace (strReplace (strReplace (strReplace (strReplace content old_ep new_ep)
      old_sq new_sq) old_sh new_sh) latest_fn new_fn) base_noext new_base = content
    rw [strReplace_id content old_ep new_ep hep hcep]
    rw [strReplace_id content old_sq new_sq hsq hcsq]
    rw [strReplace_id content old_sh new_sh hsh hcsh]
    rw [strReplace_id content latest_fn new_fn hfn hcfn]
    rw [strReplace_id content base_noext new_base hbx hcbx]
  · intro s pat rep hpat
    have hd : pat.data ≠ [] := data_ne_nil pat hpat
    refine ⟨?_, ?_, ?_⟩
    · rw [joinWith_pySplit pat.data hd s.data.length s.data (le_refl _), string_eta]
    · show String.mk (pyReplace s.data pat.data rep.data) = _
      rw [pyReplace, if_neg hd,
        replaceFrom_joinWith pat.data rep.data hd s.data.length s.data (le_refl _)]
    · exact pySplit_pieces pat.data hd s.data.length s.data (le_refl _)

/-- C8 witness: token-free content passes through unchanged; the
decomposition clause at a concrete string with occurrences. -/
theorem C8_identity_on_token_free_witness :
    rewrite_content "ep_01" "ep_02" "sq_010" "sq_020" "sh_020" "sh_030"
        "lighting_v003.ma" "lighting_v001.ma" "lighting_v003" "lighting_v001"
        "plain maya scene with no tokens"
      = "plain maya scene with no tokens"
    ∧ (String.mk (joinWith "ep_01".data (pySplit "ep_01".data "x ep_01 y ep_01".data))
        = "x ep_01 y ep_01"
      ∧ strReplace "x ep_01 y ep_01" "ep_01" "ep_02"
        = String.mk (joinWith "ep_02".data (pySplit "ep_01".data "x ep_01 y ep_01".data))
      ∧ ∀ p ∈ pySplit "ep_01".data "x ep_01 y ep_01".data,
          containsSub "ep_01".data p = false) :=
  ⟨C8_identity_on_token_free.1 "ep_01" "ep_02" "sq_010" "sq_020" "sh_020" "sh_030"
     "lighting_v003.ma" "lighting_v001.ma" "lighting_v003" "lighting_v001"
     "plain maya scene with no tokens"
     (by decide) (by decide) (by decide) (by decide) (by decide)
     (by decide) (by decide) (by decide) (by decide) (by decide),
   C8_identity_on_token_free.2 "x ep_01 y ep_01" "ep_01" "ep_02" (by decide)⟩

/-! ### Basename, splitext and version-suffix facts -/

theorem takeWhile_all_true (p : Char → Bool) :
    ∀ (x : List Char), (∀ c ∈ x, p c = true) → x.takeWhile p = x := by
  intro x
  induction x with
  | nil => intro _; rfl
  | cons c rest ih =>
    intro h
    rw [List.takeWhile_cons, if_pos (h c (List.mem_cons_self c rest))]
    rw [ih (fun d hd => h d (List.mem_cons_of_mem c hd))]

theorem takeWhile_append_all (p : Char → Bool) (x y : List Char)
    (h : ∀ c ∈ x, p c = true) : (x ++ y).takeWhile p = x ++ y.takeWhile p := by
  induction x with
  | nil => rfl
  | cons c rest ih =>
    rw [List.cons_append, List.takeWhile_cons, if_pos (h c (List.mem_cons_self c rest))]
    rw [ih (fun d hd => h d (List.mem_cons_of_mem c hd))]
    rfl

theorem basenameL_id (l : List Char) (h : ∀ c ∈ l, c ≠ '/') : basenameL l = l := by
  show (l.reverse.takeWhile (fun c => c ≠ '/')).reverse = l
  rw [takeWhile_all_true _ l.reverse
    (fun c hc => decide_eq_true (h c (List.mem_reverse.mp hc)))]
  exact List.reverse_reverse l

theorem basenameL_no_slash (l : List Char) : ∀ c ∈ basenameL l, c ≠ '/' := by
  intro c hc
  have hc2 : c ∈ l.reverse.takeWhile (fun c => c ≠ '/') := List.mem_reverse.mp hc
  have := List.mem_takeWhile_imp hc2
  exact of_decide_eq_true this

theorem string_data_append (a b : String) : (a ++ b).data = a.data ++ b.data := by
  cases a
  cases b
  rfl

theorem basenameL_append_slash (x y : List Char) (h : ∀ c ∈ y, c ≠ '/') :
    basenameL (x ++ '/' :: y) = y := by
  show ((x ++ '/' :: y).reverse.takeWhile (fun c => c ≠ '/')).reverse = y
  rw [List.reverse_append, List.reverse_cons, List.append_assoc]
  rw [takeWhile_append_all _ y.reverse _
    (fun c hc => decide_eq_true (h c (List.mem_reverse.mp hc)))]
  rw [show (['/'] ++ x.reverse).takeWhile (fun c => c ≠ '/') = [] from by
    rw [List.singleton_append, List.takeWhile_cons, if_neg (by simp)]]
  rw [List.append_nil, List.reverse_reverse]

theorem basename_join (d fn : String) (h : ∀ c ∈ fn.data, c ≠ '/') :
    os_basename (pyJoin d fn) = fn := by
  rw [pyJoin]
  have hb : ¬ fn.data.head? = some '/' := by
    cases hfd : fn.data with
    | nil => simp
    | cons c l =>
      have hcne : c ≠ '/' := h c (by rw [hfd]; exact List.mem_cons_self c l)
      simp [hcne]
  rw [if_neg hb]
  by_cases ha : d.data = [] ∨ d.data.getLast? = some '/'
  · rw [if_pos ha]
    show String.mk (basenameL (d ++ fn).data) = fn
    rw [string_data_append]
    rcases ha with ha | ha
    · rw [ha, List.nil_append, basenameL_id fn.data h, string_eta]
    · have hhead : d.data.reverse.head? = some '/' := by
        rw [List.head?_reverse]
        exact ha
      cases hdr : d.data.reverse with
      | nil => rw [hdr] at hhead; simp at hhead
      | cons c t =>
        have hc : c = '/' := by rw [hdr] at hhead; simpa using hhead
        subst hc
        have hd2 : d.data = t.reverse ++ ['/'] := by
          have h3 := congrArg List.reverse hdr
          rwa [List.reverse_reverse, List.reverse_cons] at h3
        rw [hd2, List.append_assoc]
        show String.mk (basenameL (t.reverse ++ '/' :: fn.data)) = fn
        rw [basenameL_append_slash t.reverse fn.data h, string_eta]
  · rw [if_neg ha]
    show String.mk (basenameL (d ++ "/" ++ fn).data) = fn
    rw [string_data_append, string_data_append]
    show String.mk (basenameL ((d.data ++ ['/']) ++ fn.data)) = fn
    rw [List.append_assoc]
    show String.mk (basenameL (d.data ++ '/' :: fn.data)) = fn
    rw [basenameL_append_slash d.data fn.data h, string_eta]

theorem takeWhile_append_drop_self (p : Char → Bool) :
    ∀ l : List Char, l = l.takeWhile p ++ l.drop (l.takeWhile p).length := by
  intro l
  induction l with
  | nil => rfl
  | cons c rest ih =>
    rw [List.takeWhile_cons]
    by_cases hp : p c = true
    · rw [if_pos hp]
      show c :: rest = (c :: rest.takeWhile p) ++ (c :: rest).drop (rest.takeWhile p).length.succ
      rw [List.drop_succ_cons, List.cons_append]
      rw [← ih]
    · rw [if_neg hp]
      simp

theorem strip_of_extract (fn : String) (hno : ∀ c ∈ fn.data, c ≠ '/')
    (h : (extract_version_number fn).isSome = true) :
    (strip_version_suffix ((os_splitext fn).1)).isSome = true := by
  cases hrev : fn.data.reverse with
  | nil => simp only [extract_version_number, hrev] at h; simp at h
  | cons a tl1 =>
    cases tl1 with
    | nil => simp only [extract_version_number, hrev] at h; simp at h
    | cons m tl2 =>
      cases tl2 with
      | nil => simp only [extract_version_number, hrev] at h; simp at h
      | cons d rest =>
        simp only [extract_version_number, hrev] at h
        by_cases hc1 : (a = 'a' ∨ a = 'A') ∧ (m = 'm' ∨ m = 'M') ∧ d = '.'
        case neg => rw [if_neg hc1] at h; simp at h
        rw [if_pos hc1] at h
        by_cases hds : rest.takeWhile Char.isDigit = []
        · rw [if_pos hds] at h; simp at h
        rw [if_neg hds] at h
        cases hdrop : rest.drop (rest.takeWhile Char.isDigit).length with
        | nil => rw [hdrop] at h; simp at h
        | cons v tl3 =>
          cases tl3 with
          | nil => rw [hdrop] at h; simp at h
          | cons u tail0 =>
            rw [hdrop] at h
            by_cases hc2 : (v = 'v' ∨ v = 'V') ∧ u = '_'
            case neg => simp [hc2] at h
            clear h
            have ha2 : a ≠ '.' := by rcases hc1.1 with rfl | rfl <;> decide
            have hm2 : m ≠ '.' := by rcases hc1.2.1 with rfl | rfl <;> decide
            have hd2 : d = '.' := hc1.2.2
            subst hd2
            obtain ⟨c0, ds2, hds2⟩ : ∃ c0 ds2, rest.takeWhile Char.isDigit = c0 :: ds2 := by
              cases hx : rest.takeWhile Char.isDigit with
              | nil => exact absurd hx hds
              | cons c0 ds2 => exact ⟨c0, ds2, rfl⟩
            have hdig0 : Char.isDigit c0 = true := by
              have hmem : c0 ∈ rest.takeWhile Char.isDigit := by
                rw [hds2]
                exact List.mem_cons_self c0 ds2
              exact List.mem_takeWhile_imp hmem
            obtain ⟨t0, hrest0⟩ : ∃ t0, rest = c0 :: t0 := by
              have hsplit := takeWhile_append_drop_self Char.isDigit rest
              rw [hds2, List.cons_append] at hsplit
              exact ⟨_, hsplit⟩
            have hc0dot : c0 ≠ '.' := by
              intro hcc
              rw [hcc] at hdig0
              exact absurd hdig0 (by decide)
            have he : (a :: m :: '.' :: rest).takeWhile (fun c => c ≠ '.') = [a, m] := by
              rw [List.takeWhile_cons, if_pos (decide_eq_true ha2), List.takeWhile_cons,
                if_pos (decide_eq_true hm2), List.takeWhile_cons, if_neg (by simp)]
            have hsb : splitExtBase fn.data = (rest.reverse, '.' :: [m, a]) := by
              simp only [splitExtBase]
              rw [hrev, he]
              rw [if_neg (show ¬([a, m] : List Char).length = (a :: m :: '.' :: rest).length from
                by simp)]
              rw [show (a :: m :: '.' :: rest).drop (([a, m] : List Char).length + 1) = rest
                from rfl]
              rw [if_neg (show ¬rest.all (fun c => c = '.') = true from by
                rw [hrest0, List.all_cons]
                simp [hc0dot])]
              rfl
            have hsplitext : (os_splitext fn).1 = String.mk rest.reverse := by
              simp only [os_splitext]
              rw [basenameL_id fn.data hno, hsb]
              simp [Nat.sub_self]
            rw [hsplitext]
            have hstripval : strip_version_suffix (String.mk rest.reverse)
                = if rest.takeWhile Char.isDigit = [] then none
                  else
                    match rest.drop (rest.takeWhile Char.isDigit).length with
                    | v :: u :: rest2 =>
                      if (v = 'v' ∨ v = 'V') ∧ u = '_' then some ⟨rest2.reverse⟩ else none
                    | _ => none := by
              simp only [strip_version_suffix]
              simp only [List.reverse_reverse]
            rw [hstripval, if_neg hds, hdrop]
            simp [hc2]

/-- C9: for every walk result whose filenames are genuine basenames (no
separator) and whose matched candidate set is non-empty,
`extract_version_number` succeeds on every collected path's basename,
`select_highest_version` returns an element of the set, the selected
basename minus its extension re-parses against `^(.*)_v\d+$`, and therefore
the two defensive terminal branches of the orchestrator — "Could not
determine the latest-version .ma file" and "does not match pattern" — are
unreachable for every environment built on this walk. -/
theorem C9_scanner_invariants (walk : List (String × String))
    (hno : ∀ df ∈ walk, ∀ c ∈ (df.2 : String).data, c ≠ '/')
    (hne : find_all_ma_files walk ≠ []) :
    (∀ p ∈ find_all_ma_files walk, (extract_version_number (os_basename p)).isSome = true)
    ∧ (∃ q, select_highest_version (find_all_ma_files walk) = some q
        ∧ q ∈ find_all_ma_files walk
        ∧ (strip_version_suffix ((os_splitext (os_basename q)).1)).isSome = true)
    ∧ (∀ (source_root dest_root : String) (isdir : String → Bool) (normpath : String → String)
        (mkdirErr : Option String) (isfile : String → Bool) (overwrite_ok : Bool)
        (readf : String → Except String String) (writeErr : Option String),
        clone_latest source_root dest_root isdir normpath walk mkdirErr isfile overwrite_ok
            readf writeErr
          ≠ CloneResult.error CloneErr.noLatest
        ∧ ∀ fn, clone_latest source_root dest_root isdir normpath walk mkdirErr isfile
            overwrite_ok readf writeErr
          ≠ CloneResult.error (CloneErr.badLatestName fn)) := by
  have hall : ∀ p ∈ find_all_ma_files walk,
      (extract_version_number (os_basename p)).isSome = true := by
    intro p hp
    simp only [find_all_ma_files, List.mem_map, List.mem_filter] at hp
    obtain ⟨⟨d0, f0⟩, ⟨hmem, hpred⟩, rfl⟩ := hp
    rw [basename_join d0 f0 (hno (d0, f0) hmem)]
    exact hpred
  have hsel : ∃ q, select_highest_version (find_all_ma_files walk) = some q
      ∧ q ∈ find_all_ma_files walk
      ∧ (strip_version_suffix ((os_splitext (os_basename q)).1)).isSome = true := by
    obtain ⟨q, hq, hqmem, _⟩ := select_spec (find_all_ma_files walk) hne
      (fun p hp => hall p hp)
    refine ⟨q, hq, hqmem, ?_⟩
    refine strip_of_extract (os_basename q) ?_ ?_
    · show ∀ c ∈ (String.mk (basenameL q.data)).data, c ≠ '/'
      exact basenameL_no_slash q.data
    · exact hall q hqmem
  refine ⟨hall, hsel, ?_⟩
  intro source_root dest_root isdir normpath mkdirErr isfile overwrite_ok readf writeErr
  obtain ⟨q, hq, hqmem, hqstrip⟩ := hsel
  constructor
  · intro heq
    simp only [clone_latest] at heq
    repeat' (split at heq)
    all_goals simp_all
  · intro fn heq
    simp only [clone_latest] at heq
    repeat' (split at heq)
    all_goals simp_all

/-- C9 witness: a concrete one-file walk. -/
theorem C9_scanner_invariants_witness :
    (∀ p ∈ find_all_ma_files [("/shots", "beauty_v2.ma")],
      (extract_version_number (os_basename p)).isSome = true)
    ∧ ∃ q, select_highest_version (find_all_ma_files [("/shots", "beauty_v2.ma")]) = some q
        ∧ q ∈ find_all_ma_files [("/shots", "beauty_v2.ma")]
        ∧ (strip_version_suffix ((os_splitext (os_basename q)).1)).isSome = true :=
  ⟨(C9_scanner_invariants [("/shots", "beauty_v2.ma")] (by decide) (by decide)).1,
   (C9_scanner_invariants [("/shots", "beauty_v2.ma")] (by decide) (by decide)).2.1⟩

/-- C6: when any of the three tokens is missing from the source or the
destination path, validation fails terminally with the dialog that reports
which tokens were found and which are missing (`None`), independently of
every filesystem collaborator — no walk, directory creation, read or write
can influence or be influenced by the outcome. -/
theorem C6_missing_tokens_terminal (source_root dest_root : String) (isdir : String → Bool)
    (normpath : String → String) (walk : List (String × String)) (mkdirErr : Option String)
    (isfile : String → Bool) (overwrite_ok : Bool) (readf : String → Except String String)
    (writeErr : Option String)
    (h1 : pyStrip source_root ≠ "") (h2 : isdir (pyStrip source_root) = true)
    (h3 : pyStrip dest_root ≠ "") :
    ((find_token "ep_" (normSlashS (pyStrip source_root)) = none
      ∨ find_token "sq_" (normSlashS (pyStrip source_root)) = none
      ∨ find_token "sh_" (normSlashS (pyStrip source_root)) = none) →
      clone_latest source_root dest_root isdir normpath walk mkdirErr isfile overwrite_ok
          readf writeErr
        = CloneResult.error (CloneErr.missingSrcTokens
            (find_token "ep_" (normSlashS (pyStrip source_root)))
            (find_token "sq_" (normSlashS (pyStrip source_root)))
            (find_token "sh_" (normSlashS (pyStrip source_root)))))
    ∧ ((find_token "ep_" (normSlashS (pyStrip source_root))).isSome = true →
      (find_token "sq_" (normSlashS (pyStrip source_root))).isSome = true →
      (find_token "sh_" (normSlashS (pyStrip source_root))).isSome = true →
      (find_token "ep_" (normSlashS (pyStrip dest_root)) = none
        ∨ find_token "sq_" (normSlashS (pyStrip dest_root)) = none
        ∨ find_token "sh_" (normSlashS (pyStrip dest_root)) = none) →
      clone_latest source_root dest_root isdir normpath walk mkdirErr isfile overwrite_ok
          readf writeErr
        = CloneResult.error (CloneErr.missingDstTokens
            (find_token "ep_" (normSlashS (pyStrip dest_root)))
            (find_token "sq_" (normSlashS (pyStrip dest_root)))
            (find_token "sh_" (normSlashS (pyStrip dest_root)))))
    ∧ (∀ ep sq sh, errMsg (CloneErr.missingSrcTokens ep sq sh)
        = "Source folder must contain ep_###, sq_###, and sh_###.\nFound: ep="
          ++ optTokenStr ep ++ ", sq=" ++ optTokenStr sq ++ ", sh=" ++ optTokenStr sh)
    ∧ (∀ ep sq sh, errMsg (CloneErr.missingDstTokens ep sq sh)
        = "Destination folder must contain ep_###, sq_###, and sh_###.\nFound: ep="
          ++ optTokenStr ep ++ ", sq=" ++ optTokenStr sq ++ ", sh=" ++ optTokenStr sh) := by
  refine ⟨?_, ?_, fun ep sq sh => rfl, fun ep sq sh => rfl⟩
  · intro hmiss
    simp only [clone_latest]
    rw [if_neg (show ¬(pyStrip source_root = "" ∨ isdir (pyStrip source_root) = false) from by
      simp [h1, h2])]
    rw [if_neg h3]
    rcases he : find_token "ep_" (normSlashS (pyStrip source_root)) with _ | oe <;>
      rcases hq2 : find_token "sq_" (normSlashS (pyStrip source_root)) with _ | oq <;>
        rcases hh : find_token "sh_" (normSlashS (pyStrip source_root)) with _ | oh <;>
          first
            | rfl
            | (exfalso; simp [he, hq2, hh] at hmiss)
  · intro hep hsq hsh hdmiss
    obtain ⟨oe, hoe⟩ := Option.isSome_iff_exists.mp hep
    obtain ⟨oq, hoq⟩ := Option.isSome_iff_exists.mp hsq
    obtain ⟨oh, hoh⟩ := Option.isSome_iff_exists.mp hsh
    simp only [clone_latest]
    rw [if_neg (show ¬(pyStrip source_root = "" ∨ isdir (pyStrip source_root) = false) from by
      simp [h1, h2])]
    rw [if_neg h3, hoe, hoq, hoh]
    rcases hde : find_token "ep_" (normSlashS (pyStrip dest_root)) with _ | de <;>
      rcases hdq : find_token "sq_" (normSlashS (pyStrip dest_root)) with _ | dq <;>
        rcases hdh : find_token "sh_" (normSlashS (pyStrip dest_root)) with _ | dh <;>
          first
            | rfl
            | (exfalso; simp [hde, hdq, hdh] at hdmiss)

/-- C6 witness: a source path with none of the three tokens. -/
theorem C6_missing_tokens_terminal_witness :
    clone_latest "/proj/shotwork" "/proj/other" (fun _ => true) id [] none (fun _ => false) true
        (fun _ => Except.ok "") none
      = CloneResult.error (CloneErr.missingSrcTokens
          (find_token "ep_" (normSlashS (pyStrip "/proj/shotwork")))
          (find_token "sq_" (normSlashS (pyStrip "/proj/shotwork")))
          (find_token "sh_" (normSlashS (pyStrip "/proj/shotwork")))) :=
  (C6_missing_tokens_terminal "/proj/shotwork" "/proj/other" (fun _ => true) id [] none
    (fun _ => false) true (fun _ => Except.ok "") none (by decide) rfl (by decide)).1
    (Or.inl (by decide))

/-- C10 counterexample: the claim asserts that whenever the selected file's
name contains an old token that differs from its replacement, steps 4 and 5
find no occurrence of the old filename and the version digits survive.  With
`old_ep = ep_1`, `new_ep = ep_12` and selected file `ep_12_v3.ma` (whose
name contains `ep_1`), the token step rewrites content `ep_1_v3.ma` into
`ep_12_v3.ma` — a fresh occurrence of the old filename — which step 4 then
replaces, normalising the version to `_v001`. -/
theorem C10_counterexample :
    find_token "ep_" "/s/ep_1/sq_1/sh_1" = some "ep_1"
    ∧ find_token "ep_" "/d/ep_12/sq_1/sh_1" = some "ep_12"
    ∧ containsSubS "ep_1" "ep_12_v3.ma" = true
    ∧ ("ep_1" : String) ≠ "ep_12"
    ∧ clone_latest "/s/ep_1/sq_1/sh_1" "/d/ep_12/sq_1/sh_1" (fun _ => true) id
        [("/s/ep_1/sq_1/sh_1", "ep_12_v3.ma")] none (fun _ => false) true
        (fun _ => Except.ok "ep_1_v3.ma") none
      = CloneResult.success "/d/ep_12/sq_1/sh_1/ep_12_v001.ma" "ep_12_v001.ma"
    ∧ containsSubS "_v001" "ep_12_v001.ma" = true
    ∧ containsSubS "_v3" "ep_12_v001.ma" = false := by
  decide

/-- C10 (amended): the three token substitutions run before the filename
substitutions, so occurrences of the old filename in the content are
rewritten by the token steps first; provided the token steps' output
contains no occurrence of the old filename, with or without extension —
which can fail only when a token replacement itself creates such an
occurrence, e.g. when an old token extends to its replacement — steps 4 and
5 find no literal occurrence and leave the content unchanged, so the old
version digits survive with only the tokens changed.  The second conjunct
shows this on a selected file whose name contains the old episode token:
`_v003` survives and no `_v001` is introduced into the content. -/
theorem C10_token_steps_first
    (old_ep new_ep old_sq new_sq old_sh new_sh latest_fn new_fn
      base_noext new_base content : String)
    (hfn : latest_fn ≠ "") (hbx : base_noext ≠ "")
    (h4 : containsSubS latest_fn
      (strReplace (strReplace (strReplace content old_ep new_ep) old_sq new_sq)
        old_sh new_sh) = false)
    (h5 : containsSubS base_noext
      (strReplace (strReplace (strReplace content old_ep new_ep) old_sq new_sq)
        old_sh new_sh) = false) :
    rewrite_content old_ep new_ep old_sq new_sq old_sh new_sh latest_fn new_fn
        base_noext new_base content
      = strReplace (strReplace (strReplace content old_ep new_ep) old_sq new_sq) old_sh new_sh
    ∧ (clone_latest "/p/ep_01/sq_010/sh_020" "/p/ep_02/sq_020/sh_030" (fun _ => true) id
        [("/p/ep_01/sq_010/sh_020", "ep_01_light_v003.ma")] none (fun _ => false) true
        (fun _ => Except.ok "ref ep_01_light_v003.ma;") none
      = CloneResult.success "/p/ep_02/sq_020/sh_030/ep_01_light_v001.ma"
          "ref ep_02_light_v003.ma;"
      ∧ containsSubS "_v003" "ref ep_02_light_v003.ma;" = true
      ∧ containsSubS "_v001" "ref ep_02_light_v003.ma;" = false) := by
  constructor
  · show strReplace (strReplace (strReplace (strReplace (strReplace content old_ep new_ep)
      old_sq new_sq) old_sh new_sh) latest_fn new_fn) base_noext new_base = _
    rw [strReplace_id _ latest_fn new_fn hfn h4]
    rw [strReplace_id _ base_noext new_base hbx h5]
  · decide

/-- C10 witness: the shield clause applied at the concrete scenario whose
filename contains the old episode token. -/
theorem C10_token_steps_first_witness :
    rewrite_content "ep_01" "ep_02" "sq_010" "sq_020" "sh_020" "sh_030"
        "ep_01_light_v003.ma" "ep_01_light_v001.ma" "ep_01_light_v003" "ep_01_light_v001"
        "ref ep_01_light_v003.ma;"
      = strReplace (strReplace (strReplace "ref ep_01_light_v003.ma;" "ep_01" "ep_02")
          "sq_010" "sq_020") "sh_020" "sh_030" :=
  (C10_token_steps_first "ep_01" "ep_02" "sq_010" "sq_020" "sh_020" "sh_030"
    "ep_01_light_v003.ma" "ep_01_light_v001.ma" "ep_01_light_v003" "ep_01_light_v001"
    "ref ep_01_light_v003.ma;" (by decide) (by decide) (by decide) (by decide)).1

end ASCIISwapTool
